import Mathlib

/-!
# Verification of the discrete-surfaces elastic metric (geomstats)

Shallow embedding of `geomstats/geometry/discrete_surfaces.py`:
the `DiscreteSurfaces` per-face / per-vertex geometric primitives
(`_triangle_areas`, `vertex_areas`, `normals`, `surface_one_forms`,
`surface_metric_matrices`, `face_areas`, `laplacian`), the six-term
`ElasticMetric.inner_product`, and the frame-building loop of
`DiscreteSurfacesExpSolver._discrete_geodesic_ivp_single`.

Machine floats are modelled as real numbers; arrays of vertex
coordinates as functions `Fin nV → Fin 3 → ℝ`; the triangulation as a
list of vertex-index triples; scatter-adds as indicator sums.
-/

open Matrix

noncomputable section

/-- A 3D vector (one row of a `[n, 3]` array). -/
abbrev V3 : Type := Fin 3 → ℝ

/-- Euclidean dot product of two 3D vectors. -/
def dot3 (a b : V3) : ℝ := a 0 * b 0 + a 1 * b 1 + a 2 * b 2

/-- Cross product of two 3D vectors, as computed by `gs.cross`. -/
def cross3 (a b : V3) : V3 :=
  ![a 1 * b 2 - a 2 * b 1, a 2 * b 0 - a 0 * b 2, a 0 * b 1 - a 1 * b 0]

/-- Euclidean norm of a 3D vector (`gs.linalg.norm(., axis=-1)`). -/
def norm3 (v : V3) : ℝ := Real.sqrt (dot3 v v)

/-- A face: the triple of vertex indices of one row of the `faces` array. -/
abbrev F (nV : ℕ) := Fin nV × Fin nV × Fin nV

/-- A surface (point of the manifold) or a tangent vector: per-vertex 3D data,
an array of shape `[n_vertices, 3]`. -/
abbrev Pt (nV : ℕ) := Fin nV → V3

variable {nV : ℕ}

/-- Mirrors `DiscreteSurfaces.surface_one_forms` at one face: the 2x3 matrix
stacking the edge vectors `v1 - v0` and `v2 - v0`. -/
def surface_one_forms (p : Pt nV) (f : F nV) : Matrix (Fin 2) (Fin 3) ℝ :=
  Matrix.of ![p f.2.1 - p f.1, p f.2.2 - p f.1]

/-- Mirrors `DiscreteSurfaces.surface_metric_matrices` at one face:
`one_forms @ one_forms^T`, the 2x2 Gram matrix of the one-forms. -/
def surface_metric_matrices (p : Pt nV) (f : F nV) : Matrix (Fin 2) (Fin 2) ℝ :=
  surface_one_forms p f * (surface_one_forms p f)ᵀ

/-- Mirrors `DiscreteSurfaces.face_areas` at one face:
`sqrt(det(surface_metric_matrices(point)))`. -/
def face_areas (p : Pt nV) (f : F nV) : ℝ :=
  Real.sqrt (surface_metric_matrices p f).det

/-- Heron radicand `s(s-a)(s-b)(s-c)` of one face, with the edge lengths and
semiperimeter exactly as computed in `DiscreteSurfaces._triangle_areas`. -/
def heronRadicand (p : Pt nV) (f : F nV) : ℝ :=
  let len_edge_12 := norm3 (p f.2.1 - p f.2.2)
  let len_edge_02 := norm3 (p f.1 - p f.2.2)
  let len_edge_01 := norm3 (p f.1 - p f.2.1)
  let half_perimeter := (len_edge_12 + len_edge_02 + len_edge_01) / 2
  half_perimeter * (half_perimeter - len_edge_12)
    * (half_perimeter - len_edge_02) * (half_perimeter - len_edge_01)

/-- Mirrors `DiscreteSurfaces._triangle_areas` at one face: the square root of
the Heron radicand clipped below at `1e-6` (`.clip(min=1e-6)`). -/
def triangle_areas (p : Pt nV) (f : F nV) : ℝ :=
  Real.sqrt (max (heronRadicand p f) (1 / 1000000))

/-- The index vector `id_vertices` of `DiscreteSurfaces.vertex_areas`
(lines 244-246): the row-major flatten `gs.reshape(self.faces, (-1,))`,
i.e. `[f0v0, f0v1, f0v2, f1v0, ...]`. -/
def idVertices (faces : List (F nV)) : List (Fin nV) :=
  faces.flatMap (fun f => [f.1, f.2.1, f.2.2])

/-- The source vector `val` of `DiscreteSurfaces.vertex_areas`
(lines 247-250): the per-face Heron area vector is `expand_dims`-ed on axis
`-2`, broadcast to shape `(3, n_faces)` and row-major flattened, which tiles
the whole area list three times: `[a0..a_{nf-1}, a0..a_{nf-1},
a0..a_{nf-1}]`. -/
def tiledAreas (faces : List (F nV)) (p : Pt nV) : List ℝ :=
  faces.map (triangle_areas p) ++ faces.map (triangle_areas p)
    ++ faces.map (triangle_areas p)

/-- Mirrors `DiscreteSurfaces.vertex_areas`
(`2 * incident_areas / 3.0`): `scatter_add` pairs slot `k` of `id_vertices`
with slot `k` of `val`, so vertex `faces[k/3][k%3]` is credited with
`area[k mod n_faces]` — for meshes with two or more faces of unequal area
this is a different face's area, exactly as in the source's tiled
broadcast. The scatter-add is written as an indicator sum over the zipped
slot list. -/
def vertex_areas (faces : List (F nV)) (p : Pt nV) (w : Fin nV) : ℝ :=
  2 * (((idVertices faces).zip (tiledAreas faces p)).map
    (fun x => if x.1 = w then x.2 else 0)).sum / 3

/-- Mirrors `DiscreteSurfaces.normals` at one face:
`0.5 * cross(v1 - v0, v2 - v0)`. -/
def normals (p : Pt nV) (f : F nV) : V3 :=
  (1 / 2 : ℝ) • cross3 (p f.2.1 - p f.1) (p f.2.2 - p f.1)

/-- Face area as recomputed inline inside `DiscreteSurfaces.laplacian`
(lines 383-396): the same Heron formula with the same `1e-6` clip as
`_triangle_areas`. -/
def laplacianFaceArea (p : Pt nV) (f : F nV) : ℝ :=
  let len_edge_12 := norm3 (p f.2.1 - p f.2.2)
  let len_edge_02 := norm3 (p f.1 - p f.2.2)
  let len_edge_01 := norm3 (p f.1 - p f.2.1)
  let half_perimeter := (len_edge_12 + len_edge_02 + len_edge_01) / 2
  Real.sqrt (max (half_perimeter * (half_perimeter - len_edge_12)
    * (half_perimeter - len_edge_02) * (half_perimeter - len_edge_01)) (1 / 1000000))

/-- Cotangent weights `(cot_12, cot_02, cot_01) / 2` of one face, as
precomputed by `DiscreteSurfaces.laplacian` (squared edge lengths are the
squares of the computed norms, divided by the clipped Heron area, then
halved). -/
def cotWeights (p : Pt nV) (f : F nV) : ℝ × ℝ × ℝ :=
  let len_edge_12 := norm3 (p f.2.1 - p f.2.2)
  let len_edge_02 := norm3 (p f.1 - p f.2.2)
  let len_edge_01 := norm3 (p f.1 - p f.2.1)
  let area := laplacianFaceArea p f
  let sq_len_edge_12 := len_edge_12 * len_edge_12
  let sq_len_edge_02 := len_edge_02 * len_edge_02
  let sq_len_edge_01 := len_edge_01 * len_edge_01
  ((sq_len_edge_02 + sq_len_edge_01 - sq_len_edge_12) / area / 2,
   (sq_len_edge_12 + sq_len_edge_01 - sq_len_edge_02) / area / 2,
   (sq_len_edge_12 + sq_len_edge_02 - sq_len_edge_01) / area / 2)

/-- Mirrors the closure returned by `DiscreteSurfaces.laplacian`: for each
face `(i0, i1, i2)` the weighted differences `cot_12*(u[i1]-u[i2])`,
`cot_02*(u[i2]-u[i0])`, `cot_01*(u[i0]-u[i1])` are scatter-added into the
vertices `id_vertices_201 = (i2, i0, i1)` respectively; the scatter-add is
written as an indicator sum over the face list. -/
def laplacian (faces : List (F nV)) (p : Pt nV) (u : Pt nV) (w : Fin nV) : V3 :=
  (faces.map (fun f =>
    (if f.2.2 = w then (cotWeights p f).1 • (u f.2.1 - u f.2.2) else 0)
    + (if f.1 = w then (cotWeights p f).2.1 • (u f.2.2 - u f.1) else 0)
    + (if f.2.1 = w then (cotWeights p f).2.2 • (u f.1 - u f.2.1) else 0))).sum

/-- The six non-negative weighting coefficients of `ElasticMetric`. -/
structure Weights where
  a0 : ℝ
  a1 : ℝ
  b1 : ℝ
  c1 : ℝ
  d1 : ℝ
  a2 : ℝ

/-- Mirrors `ElasticMetric._inner_product_a0`:
`a0 * sum(vertex_areas * <h, k>)`. -/
def innerProductA0 (W : Weights) (faces : List (F nV)) (u v p : Pt nV) : ℝ :=
  W.a0 * ∑ w : Fin nV, vertex_areas faces p w * dot3 (u w) (v w)

/-- Product `ginv_bp @ (one_forms(point) @ one_forms(point)^T - g_bp)`, the
quantity named `ginvdga` / `ginvdgb` in `ElasticMetric.inner_product`
(lines 894-904), with `point = base_point + tangent_vec`. -/
def ginvdg (p q : Pt nV) (f : F nV) : Matrix (Fin 2) (Fin 2) ℝ :=
  (surface_metric_matrices p f)⁻¹
    * (surface_one_forms q f * (surface_one_forms q f)ᵀ - surface_metric_matrices p f)

/-- Mirrors `ElasticMetric._inner_product_a1`:
`a1 * sum(trace(ginvdga @ ginvdgb) * areas_bp)`. -/
def innerProductA1 (W : Weights) (faces : List (F nV)) (u v p : Pt nV) : ℝ :=
  W.a1 * (faces.map (fun f =>
    (ginvdg p (p + u) f * ginvdg p (p + v) f).trace * face_areas p f)).sum

/-- Mirrors `ElasticMetric._inner_product_b1`:
`b1 * sum(trace(ginvdga) * trace(ginvdgb) * areas_bp)`. -/
def innerProductB1 (W : Weights) (faces : List (F nV)) (u v p : Pt nV) : ℝ :=
  W.b1 * (faces.map (fun f =>
    (ginvdg p (p + u) f).trace * (ginvdg p (p + v) f).trace * face_areas p f)).sum

/-- Mirrors `ElasticMetric._inner_product_c1`:
`c1 * sum(<dn_a, dn_b> * areas_bp)` where `dn_a = normals(point_a) - normals_bp`
and `point_a = base_point + tangent_vec_a`. -/
def innerProductC1 (W : Weights) (faces : List (F nV)) (u v p : Pt nV) : ℝ :=
  W.c1 * (faces.map (fun f =>
    dot3 (normals (p + u) f - normals p f) (normals (p + v) f - normals p f)
      * face_areas p f)).sum

/-- The matrix `xa_0` of `ElasticMetric._inner_product_d1`:
with `q = one_forms_bp` and `xa = one_forms_a^T - q^T`, this is
`(q^T @ ginv_bp) @ (xa^T @ q^T - q @ xa)`. -/
def xa0 (p q : Pt nV) (f : F nV) : Matrix (Fin 3) (Fin 2) ℝ :=
  ((surface_one_forms p f)ᵀ * (surface_metric_matrices p f)⁻¹)
    * (((surface_one_forms q f)ᵀ - (surface_one_forms p f)ᵀ)ᵀ * (surface_one_forms p f)ᵀ
       - surface_one_forms p f * ((surface_one_forms q f)ᵀ - (surface_one_forms p f)ᵀ))

/-- Mirrors `ElasticMetric._inner_product_d1`:
`d1 * sum(trace(xa_0 @ (ginv_bp @ xb_0^T)) * areas_bp)`. -/
def innerProductD1 (W : Weights) (faces : List (F nV)) (u v p : Pt nV) : ℝ :=
  W.d1 * (faces.map (fun f =>
    (xa0 p (p + u) f * ((surface_metric_matrices p f)⁻¹ * (xa0 p (p + v) f)ᵀ)).trace
      * face_areas p f)).sum

/-- Mirrors `ElasticMetric._inner_product_a2`:
`a2 * sum(<laplacian(h), laplacian(k)> / vertex_areas_bp)`. -/
def innerProductA2 (W : Weights) (faces : List (F nV)) (u v p : Pt nV) : ℝ :=
  W.a2 * ∑ w : Fin nV, dot3 (laplacian faces p u w) (laplacian faces p v w)
    / vertex_areas faces p w

/-- Mirrors `ElasticMetric.inner_product` (lines 846-921), including its exact
gating structure: the outer condition of the first-order block (source line
866) tests `self.b1 > 0` twice and never tests `self.d1`, so the `d1` term is
reachable only when `a1`, `b1` or `c1` is also positive. -/
def inner_product (W : Weights) (faces : List (F nV)) (u v p : Pt nV) : ℝ :=
  (if W.a0 > 0 ∨ W.a2 > 0 then
      (if W.a0 > 0 then innerProductA0 W faces u v p else 0)
    + (if W.a2 > 0 then innerProductA2 W faces u v p else 0)
   else 0)
  + (if W.a1 > 0 ∨ W.b1 > 0 ∨ W.c1 > 0 ∨ W.b1 > 0 then
      (if W.c1 > 0 then innerProductC1 W faces u v p else 0)
    + (if W.d1 > 0 ∨ W.b1 > 0 ∨ W.a1 > 0 then
        (if W.d1 > 0 then innerProductD1 W faces u v p else 0)
      + (if W.b1 > 0 ∨ W.a1 > 0 then
          (if W.a1 > 0 then innerProductA1 W faces u v p else 0)
        + (if W.b1 > 0 then innerProductB1 W faces u v p else 0)
        else 0)
      else 0)
    else 0)

/-- Frames appended by the loop of
`DiscreteSurfacesExpSolver._discrete_geodesic_ivp_single`: starting from the
last two frames `(current, next)`, each iteration appends
`step current next` (the result of `_stepforward`, whose external minimizer is
modelled by the opaque function `step`) and slides the window forward.
`geodSteps step m current next` lists `next` followed by `m` appended
frames. -/
def geodSteps (step : Pt nV → Pt nV → Pt nV) : ℕ → Pt nV → Pt nV → List (Pt nV)
  | 0, _, next => [next]
  | m + 1, current, next => next :: geodSteps step m next (step current next)

/-- Mirrors `DiscreteSurfacesExpSolver._discrete_geodesic_ivp_single`:
`geod = [base_point, base_point + tangent_vec/(n_steps-1)]`, then
`n_steps - 2` iterations (`for _ in range(2, n_steps)`) each append
`_stepforward(geod[-2], geod[-1])`. -/
def discrete_geodesic_ivp (step : Pt nV → Pt nV → Pt nV) (nSteps : ℕ)
    (tangentVec basePoint : Pt nV) : List (Pt nV) :=
  basePoint ::
    geodSteps step (nSteps - 2) basePoint
      (basePoint + (((nSteps : ℝ) - 1))⁻¹ • tangentVec)

end

/-- Example single right triangle in the plane: vertices at the origin,
`(1,0,0)` and `(0,1,0)`. -/
noncomputable def exP : Pt 3 := ![![0, 0, 0], ![1, 0, 0], ![0, 1, 0]]

/-- Example tangent vector moving vertex 1 by `(0, 1, 0)`. -/
noncomputable def exU : Pt 3 := ![![0, 0, 0], ![0, 1, 0], ![0, 0, 0]]

/-- The single face of the example mesh. -/
def exF : F 3 := (0, 1, 2)

/-- The face list of the example mesh. -/
def exFaces : List (F 3) := [exF]

section GeometryLemmas

variable {nV : ℕ}

lemma dot3_self_nonneg (v : V3) : 0 ≤ dot3 v v := by
  have h : dot3 v v = v 0 ^ 2 + v 1 ^ 2 + v 2 ^ 2 := by unfold dot3; ring
  rw [h]; positivity

lemma norm3_mul_self (v : V3) : norm3 v * norm3 v = dot3 v v :=
  Real.mul_self_sqrt (dot3_self_nonneg v)

/-- Heron's product under the square root, rewritten with only even powers of
the edge lengths. -/
lemma heron_even (a b c : ℝ) :
    ((a + b + c) / 2) * ((a + b + c) / 2 - a) * ((a + b + c) / 2 - b)
      * ((a + b + c) / 2 - c)
      = (4 * (b * b) * (c * c) - (b * b + c * c - a * a) ^ 2) / 16 := by
  ring

/-- The Heron radicand as a polynomial in the squared edge lengths. -/
lemma heronRadicand_eq (p : Pt nV) (f : F nV) :
    heronRadicand p f =
      (4 * dot3 (p f.1 - p f.2.2) (p f.1 - p f.2.2)
          * dot3 (p f.1 - p f.2.1) (p f.1 - p f.2.1)
        - (dot3 (p f.1 - p f.2.2) (p f.1 - p f.2.2)
            + dot3 (p f.1 - p f.2.1) (p f.1 - p f.2.1)
            - dot3 (p f.2.1 - p f.2.2) (p f.2.1 - p f.2.2)) ^ 2) / 16 := by
  have h := heron_even (norm3 (p f.2.1 - p f.2.2)) (norm3 (p f.1 - p f.2.2))
    (norm3 (p f.1 - p f.2.1))
  simp only [heronRadicand]
  rw [h, norm3_mul_self, norm3_mul_self, norm3_mul_self]

/-- The determinant of the per-face surface metric matrix in terms of dot
products of the two edge vectors. -/
lemma det_surface_metric_matrices (p : Pt nV) (f : F nV) :
    (surface_metric_matrices p f).det =
      dot3 (p f.2.1 - p f.1) (p f.2.1 - p f.1)
        * dot3 (p f.2.2 - p f.1) (p f.2.2 - p f.1)
      - dot3 (p f.2.1 - p f.1) (p f.2.2 - p f.1)
        * dot3 (p f.2.1 - p f.1) (p f.2.2 - p f.1) := by
  simp only [surface_metric_matrices, surface_one_forms, Matrix.det_fin_two,
    Matrix.mul_apply, Fin.sum_univ_three, Matrix.transpose_apply,
    Matrix.of_apply, Matrix.cons_val_zero, Matrix.cons_val_one,
    Matrix.head_cons, Pi.sub_apply, dot3]
  ring

/-- The metric-matrix determinant is four times the Heron radicand: the two
face-area formulas of the source differ exactly by a factor `2` under the
square root. -/
lemma det_eq_four_heron (p : Pt nV) (f : F nV) :
    (surface_metric_matrices p f).det = 4 * heronRadicand p f := by
  rw [det_surface_metric_matrices, heronRadicand_eq]
  simp only [dot3, Pi.sub_apply]
  ring

/-- Lagrange's identity for the cross product. -/
lemma cross3_dot_self (a b : V3) :
    dot3 (cross3 a b) (cross3 a b)
      = dot3 a a * dot3 b b - dot3 a b * dot3 a b := by
  simp [cross3, dot3, Matrix.vecHead, Matrix.vecTail]
  ring

lemma cross3_dot_left (a b : V3) : dot3 (cross3 a b) a = 0 := by
  simp [cross3, dot3, Matrix.vecHead, Matrix.vecTail]
  ring

lemma cross3_dot_right (a b : V3) : dot3 (cross3 a b) b = 0 := by
  simp [cross3, dot3, Matrix.vecHead, Matrix.vecTail]
  ring

lemma det_surface_metric_nonneg (p : Pt nV) (f : F nV) :
    0 ≤ (surface_metric_matrices p f).det := by
  rw [det_surface_metric_matrices]
  have h := cross3_dot_self (p f.2.1 - p f.1) (p f.2.2 - p f.1)
  have h0 := dot3_self_nonneg (cross3 (p f.2.1 - p f.1) (p f.2.2 - p f.1))
  linarith

lemma heronRadicand_nonneg (p : Pt nV) (f : F nV) : 0 ≤ heronRadicand p f := by
  have h := det_eq_four_heron p f
  have h0 := det_surface_metric_nonneg p f
  linarith

/-- `face_areas` is twice the square root of the (unclipped) Heron
radicand. -/
lemma face_areas_eq_two_sqrt (p : Pt nV) (f : F nV) :
    face_areas p f = 2 * Real.sqrt (heronRadicand p f) := by
  rw [face_areas, det_eq_four_heron,
    show (4 : ℝ) * heronRadicand p f = (2 : ℝ) ^ 2 * heronRadicand p f by ring,
    Real.sqrt_mul (by positivity), Real.sqrt_sq (by norm_num : (0 : ℝ) ≤ 2)]

/-- Wherever the `1e-6` clip is inactive, `face_areas` is exactly twice
`_triangle_areas`. -/
lemma face_areas_eq_two_mul (p : Pt nV) (f : F nV)
    (h : (1 / 1000000 : ℝ) ≤ heronRadicand p f) :
    face_areas p f = 2 * triangle_areas p f := by
  rw [face_areas_eq_two_sqrt, triangle_areas, max_eq_left h]

end GeometryLemmas

section ExampleLemmas

lemma exP_metric : surface_metric_matrices exP exF = 1 := by
  ext i j
  fin_cases i <;> fin_cases j <;>
    simp [surface_metric_matrices, surface_one_forms, exP, exF, Matrix.mul_apply,
      Fin.sum_univ_three, Matrix.one_apply, Matrix.transpose_apply,
      Matrix.vecHead, Matrix.vecTail]

lemma exP_heron : heronRadicand exP exF = 1 / 4 := by
  have h := det_eq_four_heron exP exF
  rw [exP_metric, Matrix.det_one] at h
  linarith

lemma exP_face_areas : face_areas exP exF = 1 := by
  rw [face_areas, exP_metric, Matrix.det_one, Real.sqrt_one]

lemma exP_triangle_areas : triangle_areas exP exF = 1 / 2 := by
  rw [triangle_areas, exP_heron, max_eq_left (by norm_num),
    show (1 / 4 : ℝ) = (1 / 2 : ℝ) ^ 2 by norm_num,
    Real.sqrt_sq (by norm_num : (0 : ℝ) ≤ 1 / 2)]

end ExampleLemmas

section AreaClaims

variable {nV : ℕ}

/-- C3 counterexample: on the unit right triangle, `face_areas` (the square
root of the metric-matrix determinant) yields `1`, while `_triangle_areas`
(Heron's formula) yields `1/2`; the two formulas do not agree face by face. -/
theorem c3_face_areas_ne_triangle_areas :
    face_areas exP exF = 1 ∧ triangle_areas exP exF = 1 / 2
    ∧ face_areas exP exF ≠ triangle_areas exP exF := by
  refine ⟨exP_face_areas, exP_triangle_areas, ?_⟩
  rw [exP_face_areas, exP_triangle_areas]
  norm_num

/-- C3 (amended): at every face whose Heron radicand is at least the clip
floor `1e-6`, `face_areas(point)` equals exactly twice the Heron-formula
area computed by `_triangle_areas(point)` — the two formulas agree only up
to a factor of 2. -/
theorem c3_face_areas_eq_double_heron (p : Pt nV) (f : F nV)
    (h : (1 / 1000000 : ℝ) ≤ heronRadicand p f) :
    face_areas p f = 2 * triangle_areas p f :=
  face_areas_eq_two_mul p f h

/-- Witness for `c3_face_areas_eq_double_heron` at the unit right triangle. -/
theorem c3_face_areas_eq_double_heron_witness :
    (1 / 1000000 : ℝ) ≤ heronRadicand exP exF
    ∧ face_areas exP exF = 2 * triangle_areas exP exF :=
  ⟨by rw [exP_heron]; norm_num,
   c3_face_areas_eq_double_heron exP exF (by rw [exP_heron]; norm_num)⟩

/-- C7: at every face, `normals` is `0.5 * cross(v1-v0, v2-v0)`, it is
orthogonal to both edge vectors, its magnitude is the (unclipped) Heron area
of the triangle, and wherever the `1e-6` clip is inactive its magnitude
equals `_triangle_areas`. -/
theorem c7_normals_spec (p : Pt nV) (f : F nV) :
    normals p f = (1 / 2 : ℝ) • cross3 (p f.2.1 - p f.1) (p f.2.2 - p f.1)
    ∧ dot3 (normals p f) (p f.2.1 - p f.1) = 0
    ∧ dot3 (normals p f) (p f.2.2 - p f.1) = 0
    ∧ norm3 (normals p f) = Real.sqrt (heronRadicand p f)
    ∧ ((1 / 1000000 : ℝ) ≤ heronRadicand p f →
        norm3 (normals p f) = triangle_areas p f) := by
  have h1 := cross3_dot_self (p f.2.1 - p f.1) (p f.2.2 - p f.1)
  have h2 := det_surface_metric_matrices p f
  have h3 := det_eq_four_heron p f
  have hnn : dot3 (normals p f) (normals p f) = heronRadicand p f := by
    have key : dot3 (normals p f) (normals p f)
        = (1 / 4) * dot3 (cross3 (p f.2.1 - p f.1) (p f.2.2 - p f.1))
            (cross3 (p f.2.1 - p f.1) (p f.2.2 - p f.1)) := by
      simp only [normals, dot3, Pi.smul_apply, smul_eq_mul]
      ring
    rw [key, h1, ← h2, h3]
    ring
  have hmag : norm3 (normals p f) = Real.sqrt (heronRadicand p f) := by
    rw [norm3, hnn]
  refine ⟨rfl, ?_, ?_, hmag, ?_⟩
  · have hl := cross3_dot_left (p f.2.1 - p f.1) (p f.2.2 - p f.1)
    simp only [dot3, normals, Pi.smul_apply, smul_eq_mul] at hl ⊢
    linarith
  · have hr := cross3_dot_right (p f.2.1 - p f.1) (p f.2.2 - p f.1)
    simp only [dot3, normals, Pi.smul_apply, smul_eq_mul] at hr ⊢
    linarith
  · intro h
    rw [hmag, triangle_areas, max_eq_left h]

/-- Witness for `c7_normals_spec` at the unit right triangle. -/
theorem c7_normals_spec_witness :
    (1 / 1000000 : ℝ) ≤ heronRadicand exP exF
    ∧ norm3 (normals exP exF) = triangle_areas exP exF :=
  ⟨by rw [exP_heron]; norm_num,
   (c7_normals_spec exP exF).2.2.2.2 (by rw [exP_heron]; norm_num)⟩

/-- C9: for every surface point, including degenerate meshes, the clipped
Heron radicand is at least `1e-6` (so no square root of a negative number is
taken), every `_triangle_areas` value is at least `sqrt(1e-6) > 0`, and the
face area used inside `laplacian` is the same strictly positive quantity, so
the cotangent weights divide by a strictly positive number. -/
theorem c9_degenerate_area_safety (p : Pt nV) (f : F nV) :
    (1 / 1000000 : ℝ) ≤ max (heronRadicand p f) (1 / 1000000)
    ∧ Real.sqrt (1 / 1000000) ≤ triangle_areas p f
    ∧ 0 < triangle_areas p f
    ∧ laplacianFaceArea p f = triangle_areas p f
    ∧ 0 < laplacianFaceArea p f := by
  have hmax : (1 / 1000000 : ℝ) ≤ max (heronRadicand p f) (1 / 1000000) :=
    le_max_right _ _
  have hle : Real.sqrt (1 / 1000000) ≤ triangle_areas p f :=
    Real.sqrt_le_sqrt hmax
  have hpos : 0 < triangle_areas p f := by
    rw [triangle_areas]
    exact Real.sqrt_pos.mpr (lt_of_lt_of_le (by norm_num) hmax)
  have heq : laplacianFaceArea p f = triangle_areas p f := by
    simp only [laplacianFaceArea, triangle_areas, heronRadicand]
  exact ⟨hmax, hle, hpos, heq, heq ▸ hpos⟩

/-- Summed over all vertices, a scatter-add contributes each slot's source
value exactly once, whatever the index pairing. -/
lemma scatter_total (L : List (Fin nV × ℝ)) :
    ∑ w : Fin nV, (L.map (fun x => if x.1 = w then x.2 else 0)).sum
      = (L.map Prod.snd).sum := by
  induction L with
  | nil => simp
  | cons x t ih =>
    simp only [List.map_cons, List.sum_cons]
    rw [Finset.sum_add_distrib, ih, Finset.sum_ite_eq]
    simp

lemma length_idVertices (faces : List (F nV)) :
    (idVertices faces).length = 3 * faces.length := by
  induction faces with
  | nil => rfl
  | cons f t ih =>
    simp only [idVertices, List.flatMap_cons, List.length_append, List.length_cons,
      List.length_nil] at ih ⊢
    omega

/-- Over a mesh with no clipped face, total `face_areas` is twice total
Heron area. -/
lemma map_face_areas_eq (faces : List (F nV)) (p : Pt nV)
    (h : ∀ f ∈ faces, (1 / 1000000 : ℝ) ≤ heronRadicand p f) :
    (faces.map (face_areas p)).sum
      = 2 * (faces.map (triangle_areas p)).sum := by
  induction faces with
  | nil => simp
  | cons f t ih =>
    simp only [List.map_cons, List.sum_cons]
    rw [face_areas_eq_two_mul p f (h f (by simp)),
      ih (fun g hg => h g (by simp [hg]))]
    ring

/-- C4: whenever every face of the mesh has Heron radicand above the `1e-6`
degeneracy floor, the sum of `vertex_areas` over all vertices equals the sum
of `face_areas` over all faces. -/
theorem c4_vertex_area_partition (faces : List (F nV)) (p : Pt nV)
    (h : ∀ f ∈ faces, (1 / 1000000 : ℝ) ≤ heronRadicand p f) :
    ∑ w : Fin nV, vertex_areas faces p w = (faces.map (face_areas p)).sum := by
  have hlen : (tiledAreas faces p).length ≤ (idVertices faces).length := by
    rw [length_idVertices]
    simp only [tiledAreas, List.length_append, List.length_map]
    omega
  have hsnd : ((idVertices faces).zip (tiledAreas faces p)).map Prod.snd
      = tiledAreas faces p :=
    List.map_snd_zip _ _ hlen
  simp only [vertex_areas]
  rw [← Finset.sum_div, ← Finset.mul_sum, scatter_total, hsnd,
    map_face_areas_eq faces p h]
  simp only [tiledAreas, List.sum_append]
  ring

/-- Witness for `c4_vertex_area_partition` on the single-triangle mesh. -/
theorem c4_vertex_area_partition_witness :
    (∀ f ∈ exFaces, (1 / 1000000 : ℝ) ≤ heronRadicand exP f)
    ∧ ∑ w : Fin 3, vertex_areas exFaces exP w
        = (exFaces.map (face_areas exP)).sum := by
  have hh : ∀ f ∈ exFaces, (1 / 1000000 : ℝ) ≤ heronRadicand exP f := by
    intro f hf
    simp only [exFaces, List.mem_singleton] at hf
    subst hf
    rw [exP_heron]
    norm_num
  exact ⟨hh, c4_vertex_area_partition exFaces exP hh⟩

end AreaClaims

section LaplacianClaims

variable {nV : ℕ}

lemma laplacian_add (faces : List (F nV)) (p u v : Pt nV) (w : Fin nV) :
    laplacian faces p (u + v) w = laplacian faces p u w + laplacian faces p v w := by
  induction faces with
  | nil => simp [laplacian]
  | cons f t ih =>
    simp only [laplacian, List.map_cons, List.sum_cons] at ih ⊢
    rw [ih]
    have e1 : (u + v) f.2.1 - (u + v) f.2.2
        = (u f.2.1 - u f.2.2) + (v f.2.1 - v f.2.2) := by
      simp only [Pi.add_apply]; abel
    have e2 : (u + v) f.2.2 - (u + v) f.1
        = (u f.2.2 - u f.1) + (v f.2.2 - v f.1) := by
      simp only [Pi.add_apply]; abel
    have e3 : (u + v) f.1 - (u + v) f.2.1
        = (u f.1 - u f.2.1) + (v f.1 - v f.2.1) := by
      simp only [Pi.add_apply]; abel
    rw [e1, e2, e3]
    split_ifs <;> simp only [smul_add, add_zero] <;> abel

lemma laplacian_smul (faces : List (F nV)) (p u : Pt nV) (c : ℝ) (w : Fin nV) :
    laplacian faces p (c • u) w = c • laplacian faces p u w := by
  induction faces with
  | nil => simp [laplacian]
  | cons f t ih =>
    simp only [laplacian, List.map_cons, List.sum_cons] at ih ⊢
    rw [ih]
    have e1 : (c • u) f.2.1 - (c • u) f.2.2 = c • (u f.2.1 - u f.2.2) := by
      simp only [Pi.smul_apply]; rw [smul_sub]
    have e2 : (c • u) f.2.2 - (c • u) f.1 = c • (u f.2.2 - u f.1) := by
      simp only [Pi.smul_apply]; rw [smul_sub]
    have e3 : (c • u) f.1 - (c • u) f.2.1 = c • (u f.1 - u f.2.1) := by
      simp only [Pi.smul_apply]; rw [smul_sub]
    rw [e1, e2, e3]
    split_ifs <;> simp only [smul_comm c, smul_add, smul_zero, add_zero]

lemma laplacian_zero (faces : List (F nV)) (p : Pt nV) (w : Fin nV) :
    laplacian faces p 0 w = 0 := by
  induction faces with
  | nil => simp [laplacian]
  | cons f t ih =>
    simp only [laplacian, List.map_cons, List.sum_cons] at ih ⊢
    rw [ih]
    simp

/-- C8: the operator returned by `laplacian(base_point)` is linear in the
tangent vector field: it is additive, homogeneous under scalar scaling, and
sends the zero field to the zero field. -/
theorem c8_laplacian_linear (faces : List (F nV)) (p u v : Pt nV) (c : ℝ)
    (w : Fin nV) :
    laplacian faces p (u + v) w = laplacian faces p u w + laplacian faces p v w
    ∧ laplacian faces p (c • u) w = c • laplacian faces p u w
    ∧ laplacian faces p 0 w = 0 :=
  ⟨laplacian_add faces p u v w, laplacian_smul faces p u c w,
   laplacian_zero faces p w⟩

end LaplacianClaims

section GatingClaims

variable {nV : ℕ}

/-- C10: when all six weights are non-positive (in particular all zero),
every gating condition of `inner_product` is false and the method returns
exactly the scalar `0.0`. -/
theorem c10_nonpositive_weights_give_zero (W : Weights) (faces : List (F nV))
    (u v p : Pt nV)
    (h : W.a0 ≤ 0 ∧ W.a1 ≤ 0 ∧ W.b1 ≤ 0 ∧ W.c1 ≤ 0 ∧ W.d1 ≤ 0 ∧ W.a2 ≤ 0) :
    inner_product W faces u v p = 0 := by
  obtain ⟨h0, h1, hb, hc, hd, h2⟩ := h
  have hA : ¬(W.a0 > 0 ∨ W.a2 > 0) := by rintro (x | x) <;> linarith
  have hB : ¬(W.a1 > 0 ∨ W.b1 > 0 ∨ W.c1 > 0 ∨ W.b1 > 0) := by
    rintro (x | x | x | x) <;> linarith
  rw [inner_product, if_neg hA, if_neg hB, add_zero]

/-- Witness for `c10_nonpositive_weights_give_zero` with all-zero weights. -/
theorem c10_nonpositive_weights_give_zero_witness :
    ((⟨0, 0, 0, 0, 0, 0⟩ : Weights).a0 ≤ 0
      ∧ (⟨0, 0, 0, 0, 0, 0⟩ : Weights).a1 ≤ 0
      ∧ (⟨0, 0, 0, 0, 0, 0⟩ : Weights).b1 ≤ 0
      ∧ (⟨0, 0, 0, 0, 0, 0⟩ : Weights).c1 ≤ 0
      ∧ (⟨0, 0, 0, 0, 0, 0⟩ : Weights).d1 ≤ 0
      ∧ (⟨0, 0, 0, 0, 0, 0⟩ : Weights).a2 ≤ 0)
    ∧ inner_product (⟨0, 0, 0, 0, 0, 0⟩ : Weights) exFaces exU exU exP = 0 := by
  have h : (⟨0, 0, 0, 0, 0, 0⟩ : Weights).a0 ≤ 0
      ∧ (⟨0, 0, 0, 0, 0, 0⟩ : Weights).a1 ≤ 0
      ∧ (⟨0, 0, 0, 0, 0, 0⟩ : Weights).b1 ≤ 0
      ∧ (⟨0, 0, 0, 0, 0, 0⟩ : Weights).c1 ≤ 0
      ∧ (⟨0, 0, 0, 0, 0, 0⟩ : Weights).d1 ≤ 0
      ∧ (⟨0, 0, 0, 0, 0, 0⟩ : Weights).a2 ≤ 0 := by norm_num
  exact ⟨h, c10_nonpositive_weights_give_zero _ exFaces exU exU exP h⟩

end GatingClaims

section SolverClaims

variable {nV : ℕ}

lemma geodSteps_length (step : Pt nV → Pt nV → Pt nV) (m : ℕ)
    (cur nxt : Pt nV) : (geodSteps step m cur nxt).length = m + 1 := by
  induction m generalizing cur nxt with
  | zero => rfl
  | succ k ih => simp [geodSteps, ih]

lemma geodSteps_cons (step : Pt nV → Pt nV → Pt nV) (m : ℕ) (cur nxt : Pt nV) :
    ∃ rest, geodSteps step m cur nxt = nxt :: rest := by
  cases m with
  | zero => exact ⟨[], rfl⟩
  | succ k => exact ⟨_, rfl⟩

/-- C6 counterexample: with `n_steps = 1` the frame-building loop still emits
two frames, not one (and the Euler step divides by `n_steps - 1 = 0`). -/
theorem c6_one_step_gives_two_frames :
    (discrete_geodesic_ivp (fun _ n => n) 1 (0 : Pt 1) 0).length = 2
    ∧ (discrete_geodesic_ivp (fun _ n => n) 1 (0 : Pt 1) 0).length ≠ 1 := by
  constructor
  · rfl
  · intro h
    simp only [discrete_geodesic_ivp, List.length_cons, geodSteps_length] at h
    omega

/-- C6 (amended): for every `n_steps ≥ 2`, `_discrete_geodesic_ivp_single`
returns exactly `n_steps` frames, frame 0 being exactly the base point and
frame 1 being `base_point + tangent_vec / (n_steps - 1)`. -/
theorem c6_geodesic_frames (step : Pt nV → Pt nV → Pt nV) (nSteps : ℕ)
    (tv bp : Pt nV) (h : 2 ≤ nSteps) :
    (discrete_geodesic_ivp step nSteps tv bp).length = nSteps
    ∧ ∃ rest, discrete_geodesic_ivp step nSteps tv bp
        = bp :: (bp + (((nSteps : ℝ) - 1))⁻¹ • tv) :: rest := by
  constructor
  · simp only [discrete_geodesic_ivp, List.length_cons, geodSteps_length]
    omega
  · obtain ⟨rest, hr⟩ := geodSteps_cons step (nSteps - 2) bp
      (bp + (((nSteps : ℝ) - 1))⁻¹ • tv)
    exact ⟨rest, by rw [discrete_geodesic_ivp, hr]⟩

/-- Witness for `c6_geodesic_frames` with three steps. -/
theorem c6_geodesic_frames_witness :
    2 ≤ 3
    ∧ ((discrete_geodesic_ivp (fun _ n => n) 3 exU exP).length = 3
      ∧ ∃ rest, discrete_geodesic_ivp (fun _ n => n) 3 exU exP
          = exP :: (exP + (((3 : ℕ) : ℝ) - 1)⁻¹ • exU) :: rest) :=
  ⟨by norm_num, c6_geodesic_frames (fun _ n => n) 3 exU exP (by norm_num)⟩

end SolverClaims

section SymmetryClaim

variable {nV : ℕ}

lemma dot3_comm (a b : V3) : dot3 a b = dot3 b a := by
  unfold dot3; ring

lemma surface_metric_matrices_symm (p : Pt nV) (f : F nV) :
    (surface_metric_matrices p f)ᵀ = surface_metric_matrices p f := by
  rw [surface_metric_matrices, Matrix.transpose_mul, Matrix.transpose_transpose]

lemma surface_metric_inv_symm (p : Pt nV) (f : F nV) :
    ((surface_metric_matrices p f)⁻¹)ᵀ = (surface_metric_matrices p f)⁻¹ := by
  rw [Matrix.transpose_nonsing_inv, surface_metric_matrices_symm]

/-- The `d1`-term trace is invariant under exchanging the two deformed
points. -/
lemma trace_xa0_symm (p q r : Pt nV) (f : F nV) :
    (xa0 p q f * ((surface_metric_matrices p f)⁻¹ * (xa0 p r f)ᵀ)).trace
      = (xa0 p r f * ((surface_metric_matrices p f)⁻¹ * (xa0 p q f)ᵀ)).trace := by
  conv_lhs => rw [← Matrix.trace_transpose]
  rw [Matrix.transpose_mul, Matrix.transpose_mul, Matrix.transpose_transpose,
    surface_metric_inv_symm, ← Matrix.mul_assoc]

/-- C5: `inner_product` is symmetric in its two tangent-vector arguments for
every choice of weights, every pair of tangent vectors and every base
surface. -/
theorem c5_inner_product_symm (W : Weights) (faces : List (F nV))
    (u v p : Pt nV) :
    inner_product W faces u v p = inner_product W faces v u p := by
  have hA0 : innerProductA0 W faces u v p = innerProductA0 W faces v u p := by
    have hm : ∀ w ∈ (Finset.univ : Finset (Fin nV)),
        vertex_areas faces p w * dot3 (u w) (v w)
          = vertex_areas faces p w * dot3 (v w) (u w) :=
      fun w _ => by rw [dot3_comm (u w) (v w)]
    unfold innerProductA0
    rw [Finset.sum_congr rfl hm]
  have hA1 : innerProductA1 W faces u v p = innerProductA1 W faces v u p := by
    have hm : ∀ f ∈ faces,
        (ginvdg p (p + u) f * ginvdg p (p + v) f).trace * face_areas p f
          = (ginvdg p (p + v) f * ginvdg p (p + u) f).trace * face_areas p f :=
      fun f _ => by rw [Matrix.trace_mul_comm]
    unfold innerProductA1
    rw [List.map_congr_left hm]
  have hB1 : innerProductB1 W faces u v p = innerProductB1 W faces v u p := by
    have hm : ∀ f ∈ faces,
        (ginvdg p (p + u) f).trace * (ginvdg p (p + v) f).trace * face_areas p f
          = (ginvdg p (p + v) f).trace * (ginvdg p (p + u) f).trace
              * face_areas p f :=
      fun f _ => by ring
    unfold innerProductB1
    rw [List.map_congr_left hm]
  have hC1 : innerProductC1 W faces u v p = innerProductC1 W faces v u p := by
    have hm : ∀ f ∈ faces,
        dot3 (normals (p + u) f - normals p f) (normals (p + v) f - normals p f)
            * face_areas p f
          = dot3 (normals (p + v) f - normals p f)
              (normals (p + u) f - normals p f) * face_areas p f :=
      fun f _ => by rw [dot3_comm]
    unfold innerProductC1
    rw [List.map_congr_left hm]
  have hD1 : innerProductD1 W faces u v p = innerProductD1 W faces v u p := by
    have hm : ∀ f ∈ faces,
        (xa0 p (p + u) f
            * ((surface_metric_matrices p f)⁻¹ * (xa0 p (p + v) f)ᵀ)).trace
            * face_areas p f
          = (xa0 p (p + v) f
              * ((surface_metric_matrices p f)⁻¹ * (xa0 p (p + u) f)ᵀ)).trace
              * face_areas p f :=
      fun f _ => by rw [trace_xa0_symm]
    unfold innerProductD1
    rw [List.map_congr_left hm]
  have hA2 : innerProductA2 W faces u v p = innerProductA2 W faces v u p := by
    have hm : ∀ w ∈ (Finset.univ : Finset (Fin nV)),
        dot3 (laplacian faces p u w) (laplacian faces p v w)
            / vertex_areas faces p w
          = dot3 (laplacian faces p v w) (laplacian faces p u w)
              / vertex_areas faces p w :=
      fun w _ => by rw [dot3_comm]
    unfold innerProductA2
    rw [Finset.sum_congr rfl hm]
  simp only [inner_product, hA0, hA1, hB1, hC1, hD1, hA2]

end SymmetryClaim

section ConcreteEvaluations

lemma ex_one_forms : surface_one_forms exP exF = Matrix.of ![![1, 0, 0], ![0, 1, 0]] := by
  ext i j
  fin_cases i <;> fin_cases j <;>
    simp [surface_one_forms, exP, exF, Matrix.vecHead, Matrix.vecTail]

lemma ex_one_forms_u : surface_one_forms (exP + exU) exF
    = Matrix.of ![![1, 1, 0], ![0, 1, 0]] := by
  ext i j
  fin_cases i <;> fin_cases j <;>
    simp [surface_one_forms, exP, exU, exF, Pi.add_apply, Matrix.vecHead,
      Matrix.vecTail]

lemma ex_one_forms_2u : surface_one_forms (exP + (2 : ℝ) • exU) exF
    = Matrix.of ![![1, 2, 0], ![0, 1, 0]] := by
  ext i j
  fin_cases i <;> fin_cases j <;>
    simp [surface_one_forms, exP, exU, exF, Pi.add_apply, Pi.smul_apply,
      Matrix.vecHead, Matrix.vecTail]

lemma ex_ginvdg_u : ginvdg exP (exP + exU) exF = !![1, 1; 1, 0] := by
  simp only [ginvdg, exP_metric, inv_one, Matrix.one_mul, ex_one_forms_u]
  ext i j
  fin_cases i <;> fin_cases j <;>
    simp [Matrix.mul_apply, Fin.sum_univ_three, Matrix.transpose_apply,
      Matrix.sub_apply, Matrix.one_apply, Matrix.vecHead, Matrix.vecTail]

lemma ex_ginvdg_2u : ginvdg exP (exP + (2 : ℝ) • exU) exF = !![4, 2; 2, 0] := by
  simp only [ginvdg, exP_metric, inv_one, Matrix.one_mul, ex_one_forms_2u]
  ext i j
  fin_cases i <;> fin_cases j <;>
    simp [Matrix.mul_apply, Fin.sum_univ_three, Matrix.transpose_apply,
      Matrix.sub_apply, Matrix.one_apply, Matrix.vecHead, Matrix.vecTail,
      show (2 : ℝ) * 2 = 4 by norm_num]

lemma ex_xa0_u : xa0 exP (exP + exU) exF
    = Matrix.of ![![0, 1], ![-1, 0], ![0, 0]] := by
  simp only [xa0, exP_metric, inv_one, Matrix.mul_one, ex_one_forms,
    ex_one_forms_u]
  ext i j
  fin_cases i <;> fin_cases j <;>
    simp [Matrix.mul_apply, Fin.sum_univ_two, Fin.sum_univ_three,
      Matrix.transpose_apply, Matrix.sub_apply, Matrix.vecHead, Matrix.vecTail]

lemma ex_a1_val_u : innerProductA1 ⟨0, 1, 0, 0, 0, 0⟩ exFaces exU exU exP = 3 := by
  simp only [innerProductA1, exFaces, List.map_cons, List.map_nil,
    List.sum_cons, List.sum_nil, ex_ginvdg_u, exP_face_areas]
  norm_num [Matrix.trace_fin_two, Matrix.mul_apply, Fin.sum_univ_two,
    Matrix.vecHead, Matrix.vecTail]

lemma ex_a1_val_2u : innerProductA1 ⟨0, 1, 0, 0, 0, 0⟩ exFaces ((2 : ℝ) • exU)
    exU exP = 8 := by
  simp only [innerProductA1, exFaces, List.map_cons, List.map_nil,
    List.sum_cons, List.sum_nil, ex_ginvdg_u, ex_ginvdg_2u, exP_face_areas]
  norm_num [Matrix.trace_fin_two, Matrix.mul_apply, Fin.sum_univ_two,
    Matrix.vecHead, Matrix.vecTail]

lemma ex_d1_val : innerProductD1 ⟨0, 0, 0, 0, 1, 0⟩ exFaces exU exU exP = 2 := by
  simp only [innerProductD1, exFaces, List.map_cons, List.map_nil,
    List.sum_cons, List.sum_nil, ex_xa0_u, exP_metric, inv_one, Matrix.one_mul,
    exP_face_areas]
  norm_num [Matrix.trace_fin_three, Matrix.mul_apply, Fin.sum_univ_two,
    Matrix.transpose_apply, Matrix.vecHead, Matrix.vecTail]

end ConcreteEvaluations

section WeightGateClaims

variable {nV : ℕ}

/-- With only the `d1` weight positive, every gating condition of
`inner_product` is false — the duplicated `b1` test on source line 866 never
lets the `d1` term run. -/
lemma inner_product_d1_only_eq_zero (faces : List (F nV)) (u v p : Pt nV) :
    inner_product (⟨0, 0, 0, 0, 1, 0⟩ : Weights) faces u v p = 0 := by
  have hA : ¬((⟨0, 0, 0, 0, 1, 0⟩ : Weights).a0 > 0
      ∨ (⟨0, 0, 0, 0, 1, 0⟩ : Weights).a2 > 0) := by norm_num
  have hB : ¬((⟨0, 0, 0, 0, 1, 0⟩ : Weights).a1 > 0
      ∨ (⟨0, 0, 0, 0, 1, 0⟩ : Weights).b1 > 0
      ∨ (⟨0, 0, 0, 0, 1, 0⟩ : Weights).c1 > 0
      ∨ (⟨0, 0, 0, 0, 1, 0⟩ : Weights).b1 > 0) := by norm_num
  rw [inner_product, if_neg hA, if_neg hB, add_zero]

/-- C1: the claim fails on the code. The outer guard of the first-order block
(source line 866) tests `self.b1 > 0` twice instead of testing `self.d1 > 0`,
so for weights with `d1 = 1` and all other weights `0`, `inner_product`
returns exactly `0` for every mesh and all inputs, although the `d1` term
itself — which the claim says the result should equal — evaluates to the
nonzero value `2` on the example triangle with `u = v` moving vertex 1. -/
theorem c1_d1_term_is_skipped :
    (∀ (m : ℕ) (faces : List (F m)) (u v p : Pt m),
        inner_product (⟨0, 0, 0, 0, 1, 0⟩ : Weights) faces u v p = 0)
    ∧ innerProductD1 (⟨0, 0, 0, 0, 1, 0⟩ : Weights) exFaces exU exU exP = 2 :=
  ⟨fun _ faces u v p => inner_product_d1_only_eq_zero faces u v p, ex_d1_val⟩

/-- With only the `a1` weight positive, `inner_product` reduces to the `a1`
term. -/
lemma inner_product_a1_only (faces : List (F nV)) (u v p : Pt nV) :
    inner_product (⟨0, 1, 0, 0, 0, 0⟩ : Weights) faces u v p
      = innerProductA1 (⟨0, 1, 0, 0, 0, 0⟩ : Weights) faces u v p := by
  have hA : ¬((⟨0, 1, 0, 0, 0, 0⟩ : Weights).a0 > 0
      ∨ (⟨0, 1, 0, 0, 0, 0⟩ : Weights).a2 > 0) := by norm_num
  rw [inner_product, if_neg hA,
    if_pos (show (⟨0, 1, 0, 0, 0, 0⟩ : Weights).a1 > 0
      ∨ (⟨0, 1, 0, 0, 0, 0⟩ : Weights).b1 > 0
      ∨ (⟨0, 1, 0, 0, 0, 0⟩ : Weights).c1 > 0
      ∨ (⟨0, 1, 0, 0, 0, 0⟩ : Weights).b1 > 0 by norm_num),
    if_neg (show ¬(⟨0, 1, 0, 0, 0, 0⟩ : Weights).c1 > 0 by norm_num),
    if_pos (show (⟨0, 1, 0, 0, 0, 0⟩ : Weights).d1 > 0
      ∨ (⟨0, 1, 0, 0, 0, 0⟩ : Weights).b1 > 0
      ∨ (⟨0, 1, 0, 0, 0, 0⟩ : Weights).a1 > 0 by norm_num),
    if_neg (show ¬(⟨0, 1, 0, 0, 0, 0⟩ : Weights).d1 > 0 by norm_num),
    if_pos (show (⟨0, 1, 0, 0, 0, 0⟩ : Weights).b1 > 0
      ∨ (⟨0, 1, 0, 0, 0, 0⟩ : Weights).a1 > 0 by norm_num),
    if_pos (show (⟨0, 1, 0, 0, 0, 0⟩ : Weights).a1 > 0 by norm_num),
    if_neg (show ¬(⟨0, 1, 0, 0, 0, 0⟩ : Weights).b1 > 0 by norm_num)]
  ring

/-- C2 counterexample: with weights `a1 = 1` and all others `0`, on the unit
right triangle with `u = v` moving vertex 1, scaling the first tangent vector
by `c = 2` gives `inner_product(2u, v, p) = 8` while
`2 * inner_product(u, v, p) = 6`: the finite-difference metric perturbation
`g(base+u) - g(base)` is quadratic, not linear, in `u`. -/
theorem c2_homogeneity_fails :
    inner_product (⟨0, 1, 0, 0, 0, 0⟩ : Weights) exFaces ((2 : ℝ) • exU) exU exP
      ≠ 2 * inner_product (⟨0, 1, 0, 0, 0, 0⟩ : Weights) exFaces exU exU exP := by
  rw [inner_product_a1_only, inner_product_a1_only, ex_a1_val_2u, ex_a1_val_u]
  norm_num

lemma dot3_smul_left (c : ℝ) (a b : V3) : dot3 (c • a) b = c * dot3 a b := by
  simp only [dot3, Pi.smul_apply, smul_eq_mul]
  ring

/-- The `a0` term is homogeneous in its first tangent vector. -/
lemma innerProductA0_smul (W : Weights) (faces : List (F nV)) (u v p : Pt nV)
    (c : ℝ) :
    innerProductA0 W faces (c • u) v p = c * innerProductA0 W faces u v p := by
  have hm : ∀ w ∈ (Finset.univ : Finset (Fin nV)),
      vertex_areas faces p w * dot3 ((c • u) w) (v w)
        = c * (vertex_areas faces p w * dot3 (u w) (v w)) := by
    intro w _
    rw [Pi.smul_apply, dot3_smul_left]
    ring
  unfold innerProductA0
  rw [Finset.sum_congr rfl hm, ← Finset.mul_sum]
  ring

/-- The `a2` term is homogeneous in its first tangent vector, since the
Laplacian is linear. -/
lemma innerProductA2_smul (W : Weights) (faces : List (F nV)) (u v p : Pt nV)
    (c : ℝ) :
    innerProductA2 W faces (c • u) v p = c * innerProductA2 W faces u v p := by
  have hm : ∀ w ∈ (Finset.univ : Finset (Fin nV)),
      dot3 (laplacian faces p (c • u) w) (laplacian faces p v w)
          / vertex_areas faces p w
        = c * (dot3 (laplacian faces p u w) (laplacian faces p v w)
          / vertex_areas faces p w) := by
    intro w _
    rw [laplacian_smul, dot3_smul_left]
    ring
  unfold innerProductA2
  rw [Finset.sum_congr rfl hm, ← Finset.mul_sum]
  ring

/-- C2 (amended): `inner_product` is homogeneous in its first tangent-vector
argument whenever `a1`, `b1` and `c1` are not positive (so only the exactly
bilinear `a0` and `a2` terms can be active; the `d1` term is skipped by the
gating in that case). -/
theorem c2_homogeneity_without_first_order (W : Weights) (faces : List (F nV))
    (u v p : Pt nV) (c : ℝ) (h : W.a1 ≤ 0 ∧ W.b1 ≤ 0 ∧ W.c1 ≤ 0) :
    inner_product W faces (c • u) v p = c * inner_product W faces u v p := by
  obtain ⟨h1, hb, hc⟩ := h
  have hB : ¬(W.a1 > 0 ∨ W.b1 > 0 ∨ W.c1 > 0 ∨ W.b1 > 0) := by
    rintro (x | x | x | x) <;> linarith
  rw [inner_product, inner_product, if_neg hB, if_neg hB, add_zero, add_zero]
  by_cases hA : W.a0 > 0 ∨ W.a2 > 0
  · rw [if_pos hA, if_pos hA, mul_add]
    have h0 : (if W.a0 > 0 then innerProductA0 W faces (c • u) v p else 0)
        = c * (if W.a0 > 0 then innerProductA0 W faces u v p else 0) := by
      by_cases ha0 : W.a0 > 0
      · rw [if_pos ha0, if_pos ha0, innerProductA0_smul]
      · rw [if_neg ha0, if_neg ha0, mul_zero]
    have h2 : (if W.a2 > 0 then innerProductA2 W faces (c • u) v p else 0)
        = c * (if W.a2 > 0 then innerProductA2 W faces u v p else 0) := by
      by_cases ha2 : W.a2 > 0
      · rw [if_pos ha2, if_pos ha2, innerProductA2_smul]
      · rw [if_neg ha2, if_neg ha2, mul_zero]
    rw [h0, h2]
  · rw [if_neg hA, if_neg hA, mul_zero]

/-- Witness for `c2_homogeneity_without_first_order` with only `a0`
positive. -/
theorem c2_homogeneity_without_first_order_witness :
    ((⟨1, 0, 0, 0, 0, 0⟩ : Weights).a1 ≤ 0
      ∧ (⟨1, 0, 0, 0, 0, 0⟩ : Weights).b1 ≤ 0
      ∧ (⟨1, 0, 0, 0, 0, 0⟩ : Weights).c1 ≤ 0)
    ∧ inner_product (⟨1, 0, 0, 0, 0, 0⟩ : Weights) exFaces ((2 : ℝ) • exU) exU
        exP
      = 2 * inner_product (⟨1, 0, 0, 0, 0, 0⟩ : Weights) exFaces exU exU exP :=
  ⟨by norm_num,
   c2_homogeneity_without_first_order _ exFaces exU exU exP 2 (by norm_num)⟩

end WeightGateClaims
